import Mathlib

/-
Shallow embedding of the AstroMind frontend synchronization engine
(src/frontend/src/components/Editor.tsx).  The file contains three React
components: Editor (the buffer/save toolbar), DAGView (the pipeline graph)
and ProjectPage (the state machine tying file listing, selection, versioned
content, the event stream and the log tail together).  Every definition
below is transcribed from that source; line numbers refer to Editor.tsx.
-/

namespace AstroMind

/-- Modelled from the spec: FileEntry (path unique within project, kind
file/dir).  The FileTree component that declares this record is not part of
src/; none of the claims depend on its fields, only on the listing being
replaced wholesale. -/
structure FileEntry where
  path : String
  kind : String
deriving DecidableEq

/-- A pipeline step as exported by DAGView (Editor.tsx 191-197). -/
structure Step where
  id : String
  name : String
  agent : String
  status : String
  parallel_group : Option String
deriving DecidableEq

/-- A parsed stream message: the type discriminator, the optional
artifact_path, and the remaining fields (which pass through to the log
record unmodified), abstracted as one opaque string. -/
structure MsgData where
  type : String
  artifact_path : Option String
  rest : String
deriving DecidableEq

/-- A raw frame delivered to ws.onmessage (Editor.tsx 500-517): either the
payload fails JSON.parse, or the parsed value cannot be used as an object
with a type field (both land in the catch block and are covered by
malformed), or it parses to an object abstracted as MsgData. -/
inductive RawMsg where
  | malformed
  | parsed (d : MsgData)
deriving DecidableEq

/-- Outcome of an awaited fetch: response.ok with a decoded body, or a
non-success HTTP status (the FetchError of the spec).  The fetch promise
resolves in both cases; only response.ok gates the state update. -/
inductive FetchResult (α : Type) where
  | ok (val : α)
  | error
deriving DecidableEq

/-- Body of GET /status (Editor.tsx 461-469): a project status string and
the step list. -/
structure StatusPayload where
  status : String
  steps : List Step
deriving DecidableEq

/-- Body of POST /review (Editor.tsx 577-586). -/
structure Review where
  approved : Bool
  comments : List String
deriving DecidableEq

/-- The two tabs of ProjectPage (Editor.tsx 447). -/
inductive Tab where
  | editor
  | dag
deriving DecidableEq

/-- The ProjectPage view state: one field per useState hook plus the router
supplied project id (Editor.tsx 436-447).  selectedFileRef mirrors
selectedFile (449-451), so a single field stands for both. -/
structure PageState where
  projectId : Option String
  files : List FileEntry
  selectedFile : Option String
  fileContent : String
  version : Nat
  logs : List MsgData
  steps : List Step
  status : String
  activeTab : Tab
deriving DecidableEq

/-- The initial view state: the useState initial values (Editor.tsx
439-447), with the router id still undefined. -/
def initialState : PageState :=
  { projectId := Option.none
    files := []
    selectedFile := Option.none
    fileContent := ""
    version := 1
    logs := []
    steps := []
    status := ""
    activeTab := Tab.editor }

/-- JavaScript truthiness of an optional string: undefined, null and the
empty string are falsy. -/
def truthy : Option String → Bool
  | Option.none => false
  | Option.some s => !(s == "")

/-- Network requests a transition can issue; resolutions are applied later
by the resolve functions below. -/
inductive Request where
  | files
  | status
  | content (path : String) (version : Nat)
  | save (path : String) (content : String)
  | chat
  | review (paths : List String)
deriving DecidableEq

/-- fetchFiles resolution (Editor.tsx 453-459): only response.ok replaces
the listing wholesale; a FetchError leaves it untouched. -/
def resolveFiles (s : PageState) (r : FetchResult (List FileEntry)) : PageState :=
  match r with
  | FetchResult.ok l => { s with files := l }
  | FetchResult.error => s

/-- fetchStatus resolution (Editor.tsx 461-469): on response.ok both steps
and status are replaced wholesale; a FetchError changes nothing. -/
def resolveStatus (s : PageState) (r : FetchResult StatusPayload) : PageState :=
  match r with
  | FetchResult.ok d => { s with steps := d.steps, status := d.status }
  | FetchResult.error => s

/-- fetchFileContent resolution (Editor.tsx 471-484): the handler for a
fetch that was requested for (reqPath, reqVersion) checks response.ok and
then applies the body with setFileContent.  The requested pair is in scope
in the source closure but is never compared against the current selection;
the transcription keeps the two arguments to make that visible. -/
def resolveContent (s : PageState) (reqPath : String) (reqVersion : Nat)
    (r : FetchResult String) : PageState :=
  match reqPath, reqVersion, r with
  | _, _, FetchResult.ok text => { s with fileContent := text }
  | _, _, FetchResult.error => s

/-- setLogs((prev) => [...prev.slice(-199), data]) (Editor.tsx 504): keep
the last 199 retained entries and append the new event. -/
def logPush (prev : List MsgData) (d : MsgData) : List MsgData :=
  prev.drop (prev.length - 199) ++ [d]

/-- The per-event effects of the stream handler: whether a status refresh
and a listing refresh were issued, and the (path, version) of a content
refetch when one was issued. -/
structure MsgEffects where
  statusRefresh : Bool
  listingRefresh : Bool
  contentRefetch : Option (String × Nat)
deriving DecidableEq

/-- No effect at all (the silent branches of the handler). -/
def MsgEffects.silent : MsgEffects :=
  { statusRefresh := false
    listingRefresh := false
    contentRefetch := Option.none }

/-- The content-refetch decision of the stream handler (Editor.tsx
509-511): selectedFileRef.current must be truthy and strictly equal to
data.artifact_path, and the refetch targets selectedFileRef.current at the
current version.  The artifact_path argument is only consulted here when it
is itself truthy (the enclosing if on line 506). -/
def refetchTarget (sel : Option String) (version : Nat) (ap : Option String) :
    Option (String × Nat) :=
  match sel with
  | Option.none => Option.none
  | Option.some p =>
    if truthy ap && !(p == "") && (ap == Option.some p)
    then Option.some (p, version)
    else Option.none

/-- ws.onmessage (Editor.tsx 500-517).  The whole body sits in try/catch,
so a malformed frame changes nothing and nothing escapes the handler.  Only
data.type === "event" is acted on: the event is appended to the bounded
log, fetchStatus always runs, and only a truthy data.artifact_path runs
fetchFiles and - when selectedFileRef.current is truthy and strictly equal
to data.artifact_path - fetchFileContent(selectedFileRef.current) at the
current version.  The subscription only exists while projectId is truthy
(line 498), so the projectId guards inside the fetch callbacks never fire
here.  The handler reads the selection through selectedFileRef, i.e. the
freshest state, which the s argument stands for. -/
def onMessage (s : PageState) (m : RawMsg) : PageState × MsgEffects :=
  match m with
  | RawMsg.malformed => (s, MsgEffects.silent)
  | RawMsg.parsed d =>
    if d.type == "event" then
      ({ s with logs := logPush s.logs d },
       { statusRefresh := true
         listingRefresh := truthy d.artifact_path
         contentRefetch := refetchTarget s.selectedFile s.version d.artifact_path })
    else (s, MsgEffects.silent)

/-- onSelect (Editor.tsx 614) plus the selection effect (491-495): the
selection is set, and the effect issues fetchFileContent(selectedFile) at
the current version only when the new selection is truthy; fetchFileContent
itself returns early when projectId is falsy (473). -/
def selectFile (s : PageState) (p : Option String) : PageState × List Request :=
  ({ s with selectedFile := p },
   match p with
   | Option.none => []
   | Option.some path =>
     if path == "" then []
     else if truthy s.projectId then [Request.content path s.version] else [])

/-- onVersionChange (Editor.tsx 616) plus the same effect (491-495), which
also has version in its dependency list: the version is set and, when a
truthy file is selected, a refetch at the new version is issued. -/
def changeVersion (s : PageState) (v : Nat) : PageState × List Request :=
  ({ s with version := v },
   match s.selectedFile with
   | Option.none => []
   | Option.some path =>
     if path == "" then []
     else if truthy s.projectId then [Request.content path v] else [])

/-- The project id changing (router query): fetchFiles and fetchStatus are
recreated so the initial-fetch effect (486-489) re-runs, and the selection
effect (491-495) re-runs because fetchFileContent was recreated.  No state
setter runs; only fetches (guarded by the new id being truthy) are
issued, and the stream is re-established. -/
def projectChange (s : PageState) (newId : Option String) : PageState × List Request :=
  ({ s with projectId := newId },
   (if truthy newId then [Request.files, Request.status] else []) ++
   (match s.selectedFile with
    | Option.none => []
    | Option.some path =>
      if path == "" then []
      else if truthy newId then [Request.content path s.version] else []))

/-- handleSave (Editor.tsx 521-530): early return unless both projectId and
selectedFile are truthy; otherwise the save POST is awaited with its
response entirely ignored (no response.ok check, and fetch resolves on any
HTTP status), and fetchFiles is awaited afterwards.  The match on saveResp
makes the independence from the outcome explicit. -/
def handleSave (s : PageState) (content : String) (saveResp : FetchResult Unit) :
    List Request :=
  match s.projectId, s.selectedFile with
  | Option.some pid, Option.some f =>
    if pid == "" || f == "" then []
    else
      match saveResp with
      | FetchResult.ok _ => [Request.save f content, Request.files]
      | FetchResult.error => [Request.save f content, Request.files]
  | _, _ => []

/-- handleChat (Editor.tsx 532-545): falsy projectId returns an error
string; a non-ok response throws; otherwise fetchFiles fires and the
response text is returned.  The thrown path is the Except.error case. -/
def handleChat (s : PageState) (resp : FetchResult String) :
    Except String (String × List Request) :=
  match s.projectId with
  | Option.none => Except.ok ("Error: No project ID", [])
  | Option.some pid =>
    if pid == "" then Except.ok ("Error: No project ID", [])
    else
      match resp with
      | FetchResult.error => Except.error "Failed to send message"
      | FetchResult.ok r => Except.ok (r, [Request.files])

/-- handleFix (Editor.tsx 548-562): early return unless a file is selected
and the loaded content is non-empty; the chat call is wrapped in try/catch
with console.error in the catch, so a chat failure is contained. -/
def handleFix (s : PageState) (chatResp : FetchResult String) :
    Except String (List Request) :=
  match s.selectedFile with
  | Option.none => Except.ok []
  | Option.some f =>
    if f == "" || s.fileContent == "" then Except.ok []
    else
      match handleChat s chatResp with
      | Except.error _ => Except.ok [Request.chat]
      | Except.ok (_, reqs) => Except.ok (Request.chat :: reqs)

/-- What handleDeepReview surfaces to the user. -/
inductive ReviewOutcome where
  | approvedAlert
  | commentsAlert (comments : List String)
  | silent
deriving DecidableEq

/-- handleDeepReview (Editor.tsx 565-591): early return unless projectId
and selectedFile are truthy; the fetch sits in try/catch and only a
response.ok body raises an alert, so a FetchError is silent and nothing
escapes. -/
def handleDeepReview (s : PageState) (resp : FetchResult Review) : ReviewOutcome :=
  match s.projectId, s.selectedFile with
  | Option.some pid, Option.some f =>
    if pid == "" || f == "" then ReviewOutcome.silent
    else
      match resp with
      | FetchResult.error => ReviewOutcome.silent
      | FetchResult.ok r =>
        if r.approved then ReviewOutcome.approvedAlert
        else ReviewOutcome.commentsAlert r.comments
  | _, _ => ReviewOutcome.silent

/-- The Editor buffer sync (Editor.tsx 23-26): useEffect with dependency
list [content] overwrites the buffer only when the content prop changed
between renders. -/
def editorValueAfter (oldContent newContent currentValue : String) : String :=
  if newContent == oldContent then currentValue else newContent

/-- What the Editor component shows (Editor.tsx 38-40): a placeholder (none)
when the path prop is falsy, otherwise the content prop. -/
def displayed (s : PageState) : Option String :=
  match s.selectedFile with
  | Option.none => Option.none
  | Option.some p => if p == "" then Option.none else Option.some s.fileContent

/-- An interleaving step of the event loop: a user action, a stream frame,
or the resolution of a previously issued fetch. -/
inductive Action where
  | select (p : Option String)
  | setVersion (v : Nat)
  | message (m : RawMsg)
  | contentResolved (reqPath : String) (reqVersion : Nat) (r : FetchResult String)
  | filesResolved (r : FetchResult (List FileEntry))
  | statusResolved (r : FetchResult StatusPayload)
deriving DecidableEq

/-- The state part of one interleaving step. -/
def stepAction (s : PageState) (a : Action) : PageState :=
  match a with
  | Action.select p => (selectFile s p).1
  | Action.setVersion v => (changeVersion s v).1
  | Action.message m => (onMessage s m).1
  | Action.contentResolved p v r => resolveContent s p v r
  | Action.filesResolved r => resolveFiles s r
  | Action.statusResolved r => resolveStatus s r

/-- Running a whole interleaving from a state. -/
def run (s : PageState) (acts : List Action) : PageState :=
  acts.foldl stepAction s

/-- Running a sequence of stream frames through the handler. -/
def runMsgs (s : PageState) (ms : List RawMsg) : PageState :=
  run s (ms.map Action.message)

/-- The events a frame sequence actually appends: parsed frames whose type
is "event". -/
def accepted : List RawMsg → List MsgData
  | [] => []
  | RawMsg.malformed :: ms => accepted ms
  | RawMsg.parsed d :: ms =>
    if d.type == "event" then d :: accepted ms else accepted ms

/-- DAGView cohort key (Editor.tsx 259 and 327):
step.parallel_group || step.id, with JavaScript truthiness, so null,
undefined and the empty string all fall back to the step id. -/
def groupKey (s : Step) : String :=
  match s.parallel_group with
  | Option.some g => if g == "" then s.id else g
  | Option.none => s.id

/-- One insertion into the insertion-ordered group map
(groups.get(group)!.push(step) after groups.set on a missing key,
Editor.tsx 260-263): append to the bucket of the first entry with this key,
or add a fresh bucket at the end. -/
def addToGroups (gs : List (String × List Step)) (k : String) (s : Step) :
    List (String × List Step) :=
  match gs with
  | [] => [(k, [s])]
  | (k0, ss) :: rest =>
    if k0 = k then (k0, ss ++ [s]) :: rest
    else (k0, ss) :: addToGroups rest k s

/-- The grouping loop of DAGView (Editor.tsx 256-264 and 325-332): a
JavaScript Map iterated in insertion order. -/
def groupSteps (steps : List Step) : List (String × List Step) :=
  steps.foldl (fun gs s => addToGroups gs (groupKey s) s) []

/-- Group keys in order of first appearance in the step list. -/
def firstKeys (steps : List Step) : List String :=
  steps.foldl (fun ks s => if groupKey s ∈ ks then ks else ks ++ [groupKey s]) []

/-- The cohort partition as the spec words it, with the source key
function: cohorts ordered by first appearance of their key, each cohort
holding the steps with that key in list order. -/
def cohortsSpec (steps : List Step) : List (String × List Step) :=
  (firstKeys steps).map (fun k => (k, steps.filter (fun s => decide (groupKey s = k))))

/-- The cohort key exactly as the claim words it: steps with the same
parallel_group share a cohort, and only an absent parallel_group falls
back to the step id (an empty-string group is a present group here). -/
def claimKey (s : Step) : String :=
  match s.parallel_group with
  | Option.some g => g
  | Option.none => s.id

/-- First-appearance keys under the claim wording. -/
def claimFirstKeys (steps : List Step) : List String :=
  steps.foldl (fun ks s => if claimKey s ∈ ks then ks else ks ++ [claimKey s]) []

/-- The cohort partition exactly as the claim words it. -/
def cohortsClaim (steps : List Step) : List (String × List Step) :=
  (claimFirstKeys steps).map (fun k => (k, steps.filter (fun s => decide (claimKey s = k))))

/-- A fixed accepted event used by the C2 witness. -/
def eventMsg : MsgData :=
  { type := "event", artifact_path := Option.none, rest := "" }

/-- Two steps that share the present parallel_group "" but have distinct
ids, used to separate the claim wording from the code. -/
def stepA : Step :=
  { id := "a", name := "alpha", agent := "dev", status := "pending",
    parallel_group := Option.some "" }

/-- See stepA. -/
def stepB : Step :=
  { id := "b", name := "beta", agent := "dev", status := "pending",
    parallel_group := Option.some "" }

/-- C1: the claimed staleness invariant is not enforced by the code.  With
file A selected and its (A, 1) content fetch in flight, the selection moves
to B; when the stale (A, 1) response then resolves, the handler of
fetchFileContent (Editor.tsx 478-481) applies it unconditionally, so the
displayed content flips from the old text to the stale A text even though
the current selection pair is (B, 1): applying the stale result does alter
the displayed content, contradicting the claim. -/
theorem staleness_not_enforced :
    (run { initialState with
             projectId := Option.some "p"
             selectedFile := Option.some "A"
             fileContent := "A-old" }
         [Action.select (Option.some "B")]).selectedFile = Option.some "B" ∧
    displayed (run { initialState with
                       projectId := Option.some "p"
                       selectedFile := Option.some "A"
                       fileContent := "A-old" }
                  [Action.select (Option.some "B")]) = Option.some "A-old" ∧
    displayed (run { initialState with
                       projectId := Option.some "p"
                       selectedFile := Option.some "A"
                       fileContent := "A-old" }
                  [Action.select (Option.some "B"),
                   Action.contentResolved "A" 1 (FetchResult.ok "A-new")])
      = Option.some "A-new" := by
  decide

/-- Folding the bounded log append from an empty log retains exactly the
most recent 200 entries in arrival order. -/
theorem logPush_foldl (es : List MsgData) :
    es.foldl logPush [] = es.drop (es.length - 200) := by
  induction es using List.reverseRecOn with
  | nil => rfl
  | append_singleton l d ih =>
    rw [List.foldl_append, List.foldl_cons, List.foldl_nil, ih]
    rcases le_or_lt l.length 199 with hle | hgt
    · have e1 : l.length - 200 = 0 := by omega
      have e2 : l.length - 199 = 0 := by omega
      have e3 : l.length + 1 - 200 = 0 := by omega
      simp [logPush, e1, e2, e3]
    · have hlen : (List.drop (l.length - 200) l).length - 199 = 1 := by
        rw [List.length_drop]
        omega
      have earith : l.length - 200 + 1 = l.length - 199 := by omega
      have key : List.drop 1 (List.drop (l.length - 200) l) = List.drop (l.length - 199) l := by
        rw [List.drop_drop, earith]
      have e2 : (l ++ [d]).length - 200 = l.length - 199 := by
        rw [List.length_append]
        simp only [List.length_cons, List.length_nil]
        omega
      have hle2 : l.length - 199 ≤ l.length := by omega
      simp only [logPush]
      rw [hlen, key, e2, List.drop_append_of_le_length hle2]

/-- The log field of the state after a frame sequence is the fold of the
bounded append over the accepted events, whatever else the handler did. -/
theorem runMsgs_logs (ms : List RawMsg) (s : PageState) :
    (runMsgs s ms).logs = (accepted ms).foldl logPush s.logs := by
  induction ms generalizing s with
  | nil => rfl
  | cons m ms ih =>
    have hrun : runMsgs s (m :: ms) = runMsgs (stepAction s (Action.message m)) ms := rfl
    cases m with
    | malformed =>
      have hacc : accepted (RawMsg.malformed :: ms) = accepted ms := by simp [accepted]
      rw [hrun, hacc]
      exact ih s
    | parsed d =>
      cases hb : d.type == "event" with
      | false =>
        have hstep : stepAction s (Action.message (RawMsg.parsed d)) = s := by
          simp [stepAction, onMessage, hb]
        have hacc : accepted (RawMsg.parsed d :: ms) = accepted ms := by
          simp [accepted, hb]
        rw [hrun, hstep, hacc]
        exact ih s
      | true =>
        have hstep : stepAction s (Action.message (RawMsg.parsed d)) =
            { s with logs := logPush s.logs d } := by
          simp [stepAction, onMessage, hb]
        have hacc : accepted (RawMsg.parsed d :: ms) = d :: accepted ms := by
          simp [accepted, hb]
        rw [hrun, hstep, hacc, List.foldl_cons]
        exact ih _

/-- A sequence of frames that are all accepted events appends exactly those
events. -/
theorem accepted_all (es : List MsgData) (h : ∀ d ∈ es, d.type = "event") :
    accepted (es.map RawMsg.parsed) = es := by
  induction es with
  | nil => rfl
  | cons d ds ih =>
    have hd : d.type = "event" := h d (by simp)
    have hb : (d.type == "event") = true := by simp [hd]
    have hds := ih (fun x hx => h x (by simp [hx]))
    rw [List.map_cons]
    simp [accepted, hb, hds]

/-- C2: feeding N accepted stream events through the handler from the
fresh state leaves the log holding the most recent min(N, 200) events in
arrival order - exactly 200 of them once N exceeds 200, and all N when
N is at most 200. -/
theorem log_bounding (es : List MsgData) (hall : ∀ d ∈ es, d.type = "event") :
    (runMsgs initialState (es.map RawMsg.parsed)).logs = es.drop (es.length - 200) ∧
    (200 < es.length →
      (runMsgs initialState (es.map RawMsg.parsed)).logs.length = 200) ∧
    (es.length ≤ 200 → (runMsgs initialState (es.map RawMsg.parsed)).logs = es) := by
  have hmain : (runMsgs initialState (es.map RawMsg.parsed)).logs
      = es.drop (es.length - 200) := by
    rw [runMsgs_logs, accepted_all es hall]
    exact logPush_foldl es
  refine ⟨hmain, ?_, ?_⟩
  · intro hgt
    rw [hmain, List.length_drop]
    omega
  · intro hle
    have hz : es.length - 200 = 0 := by omega
    rw [hmain, hz, List.drop_zero]

/-- Witness for C2 on a concrete run of 201 accepted events. -/
theorem log_bounding_witness :
    (∀ d ∈ List.replicate 201 eventMsg, d.type = "event") ∧
    200 < (List.replicate 201 eventMsg).length ∧
    (runMsgs initialState ((List.replicate 201 eventMsg).map RawMsg.parsed)).logs
      = (List.replicate 201 eventMsg).drop ((List.replicate 201 eventMsg).length - 200) ∧
    (runMsgs initialState ((List.replicate 201 eventMsg).map RawMsg.parsed)).logs.length
      = 200 := by
  have hall : ∀ d ∈ List.replicate 201 eventMsg, d.type = "event" := by
    intro d hd
    rw [List.eq_of_mem_replicate hd]
    rfl
  have hlen : 200 < (List.replicate 201 eventMsg).length := by
    rw [List.length_replicate]
    omega
  exact ⟨hall, hlen, (log_bounding _ hall).1, (log_bounding _ hall).2.1 hlen⟩

/-- C3: a malformed stream frame changes nothing and the handler returns
normally; a parsed message whose type field is not "event" changes nothing
and triggers no refresh; a message with type "event" does exactly the
bounded log append on the state. -/
theorem stream_noise_tolerance (s : PageState) :
    onMessage s RawMsg.malformed = (s, MsgEffects.silent) ∧
    (∀ d : MsgData, d.type ≠ "event" →
      onMessage s (RawMsg.parsed d) = (s, MsgEffects.silent)) ∧
    (∀ d : MsgData, d.type = "event" →
      (onMessage s (RawMsg.parsed d)).1 = { s with logs := logPush s.logs d }) := by
  refine ⟨rfl, ?_, ?_⟩
  · intro d hd
    simp [onMessage, hd]
  · intro d hd
    simp [onMessage, hd]

/-- Witness for C3 at a concrete state and a concrete non-event message. -/
theorem stream_noise_tolerance_witness :
    onMessage initialState RawMsg.malformed = (initialState, MsgEffects.silent) ∧
    onMessage initialState
        (RawMsg.parsed { type := "ping", artifact_path := Option.none, rest := "x" })
      = (initialState, MsgEffects.silent) :=
  ⟨(stream_noise_tolerance initialState).1,
   (stream_noise_tolerance initialState).2.1 _ (by decide)⟩

/-- The refetch decision in spec form: a refetch happens exactly when the
truthy artifact path equals the current selection, and then it targets the
selected path at the current version. -/
theorem refetchTarget_eq (sel : Option String) (v : Nat) (ap : Option String) :
    refetchTarget sel v ap =
      (if truthy ap = true ∧ ap = sel
       then sel.map (fun p => (p, v))
       else Option.none) := by
  cases sel with
  | none =>
    have hcond : ¬(truthy ap = true ∧ ap = (Option.none : Option String)) := by
      rintro ⟨h1, h2⟩
      subst h2
      simp [truthy] at h1
    rw [if_neg hcond]
    rfl
  | some p =>
    cases hap : truthy ap with
    | false => simp [refetchTarget, hap]
    | true =>
      cases hpe : ap == Option.some p with
      | false =>
        have hne : ¬ap = Option.some p := by
          intro hc
          rw [hc] at hpe
          simp at hpe
        simp [refetchTarget, hap, hpe, hne]
      | true =>
        have heq : ap = Option.some p := eq_of_beq hpe
        have hp : (!(p == "")) = true := by
          rw [heq] at hap
          simpa [truthy] using hap
        simp [refetchTarget, truthy, hap, hpe, heq, hp]

/-- C4: an accepted stream event always triggers the status refresh; it
triggers the listing refresh exactly when its artifact_path is truthy; and
it triggers exactly one content refetch, at the freshest selection and the
current version, precisely when its (truthy) artifact_path equals the
currently selected path at event-processing time. -/
theorem artifact_refetch (s : PageState) (d : MsgData) (h : d.type = "event") :
    (onMessage s (RawMsg.parsed d)).2.statusRefresh = true ∧
    (onMessage s (RawMsg.parsed d)).2.listingRefresh = truthy d.artifact_path ∧
    (onMessage s (RawMsg.parsed d)).2.contentRefetch =
      (if truthy d.artifact_path = true ∧ d.artifact_path = s.selectedFile
       then s.selectedFile.map (fun p => (p, s.version))
       else Option.none) := by
  have h3 : (onMessage s (RawMsg.parsed d)).2 =
      { statusRefresh := true
        listingRefresh := truthy d.artifact_path
        contentRefetch := refetchTarget s.selectedFile s.version d.artifact_path } := by
    simp [onMessage, h]
  rw [h3]
  exact ⟨rfl, rfl, refetchTarget_eq _ _ _⟩

/-- Witness for C4: an accepted event whose artifact path matches the
selection triggers the single content refetch at the current version. -/
theorem artifact_refetch_witness :
    (onMessage { initialState with selectedFile := Option.some "a.py", version := 3 }
        (RawMsg.parsed { type := "event", artifact_path := Option.some "a.py", rest := "" })).2.contentRefetch
      = Option.some ("a.py", 3) := by
  have hthm := artifact_refetch
    { initialState with selectedFile := Option.some "a.py", version := 3 }
    { type := "event", artifact_path := Option.some "a.py", rest := "" } rfl
  rw [hthm.2.2]
  decide

/-- C5: selecting null issues no content fetch, and a content fetch that
resolves after the selection became null leaves the displayed content at
the null placeholder (the Editor renders the placeholder when path is
falsy, so the stale body is never shown). -/
theorem null_selection (s : PageState) (reqPath : String) (reqVersion : Nat)
    (r : FetchResult String) (h : s.selectedFile = Option.none) :
    (∀ t : PageState, (selectFile t Option.none).2 = []) ∧
    displayed s = Option.none ∧
    displayed (resolveContent s reqPath reqVersion r) = Option.none := by
  refine ⟨fun t => rfl, ?_, ?_⟩
  · simp [displayed, h]
  · cases r <;> simp [displayed, resolveContent, h]

/-- Witness for C5 at a state whose selection has just become null while a
fetch for the prior selection was in flight. -/
theorem null_selection_witness :
    ((run { initialState with projectId := Option.some "p",
                              selectedFile := Option.some "A" }
         [Action.select Option.none]).selectedFile = Option.none) ∧
    displayed (resolveContent
        (run { initialState with projectId := Option.some "p",
                                 selectedFile := Option.some "A" }
            [Action.select Option.none]) "A" 1 (FetchResult.ok "late"))
      = Option.none := by
  refine ⟨rfl, ?_⟩
  exact (null_selection _ "A" 1 (FetchResult.ok "late") rfl).2.2

/-- C6: a FetchError on any of the three read operations leaves the whole
prior state unchanged - listing, steps and status, and displayed content
all keep their previous snapshot. -/
theorem read_failure_atomic (s : PageState) :
    resolveFiles s FetchResult.error = s ∧
    resolveStatus s FetchResult.error = s ∧
    (∀ (p : String) (v : Nat), resolveContent s p v FetchResult.error = s) :=
  ⟨rfl, rfl, fun _ _ => rfl⟩

/-- C7: with a truthy project id and selected file, a save always issues
the save request followed by the listing refresh, whatever the save
response was; a FetchError on deep review is swallowed silently; and a
chat FetchError inside the fix action is caught, so the fix pipeline never
propagates an exception. -/
theorem write_pipeline (s : PageState) (c pid f : String)
    (hpid : s.projectId = Option.some pid) (hp : pid ≠ "")
    (hf : s.selectedFile = Option.some f) (hf2 : f ≠ "") :
    (∀ saveResp : FetchResult Unit,
      handleSave s c saveResp = [Request.save f c, Request.files]) ∧
    handleDeepReview s FetchResult.error = ReviewOutcome.silent ∧
    (∀ chatResp : FetchResult String,
      ∃ reqs, handleFix s chatResp = Except.ok reqs) := by
  have hpb : (pid == "") = false := by simp [hp]
  have hfb : (f == "") = false := by simp [hf2]
  refine ⟨?_, ?_, ?_⟩
  · intro saveResp
    cases saveResp <;> simp [handleSave, hpid, hf, hpb, hfb]
  · simp [handleDeepReview, hpid, hf, hpb, hfb]
  · intro chatResp
    by_cases hc : (s.fileContent == "") = true
    · exact ⟨[], by simp [handleFix, hf, hfb, hc]⟩
    · have hc2 : (s.fileContent == "") = false := by simpa using hc
      rcases hch : handleChat s chatResp with e | pr
      · exact ⟨[Request.chat], by simp [handleFix, hf, hfb, hc2, hch]⟩
      · exact ⟨Request.chat :: pr.2, by simp [handleFix, hf, hfb, hc2, hch]⟩

/-- Witness for C7 at a concrete state with a project and a selected file,
and a failing response for each write operation. -/
theorem write_pipeline_witness :
    handleSave { initialState with projectId := Option.some "p",
                                   selectedFile := Option.some "f" }
        "body" FetchResult.error = [Request.save "f" "body", Request.files] ∧
    handleDeepReview { initialState with projectId := Option.some "p",
                                         selectedFile := Option.some "f" }
        FetchResult.error = ReviewOutcome.silent ∧
    (∃ reqs, handleFix { initialState with projectId := Option.some "p",
                                           selectedFile := Option.some "f" }
        FetchResult.error = Except.ok reqs) := by
  have hthm := write_pipeline
    { initialState with projectId := Option.some "p", selectedFile := Option.some "f" }
    "body" "p" "f" rfl (by decide) rfl (by decide)
  exact ⟨hthm.1 FetchResult.error, hthm.2.1, hthm.2.2 FetchResult.error⟩

/-- C8: a save never issues a content fetch, and the listing refresh that
follows it changes only the listing - selection, version, file content and
the displayed content are untouched, so the Editor buffer sync effect
(which fires only when the content prop changes) leaves the in-progress
buffer of the user authoritative. -/
theorem save_preserves_buffer (s : PageState) (c : String)
    (saveResp : FetchResult Unit) (l : List FileEntry) :
    (∀ (p : String) (v : Nat), Request.content p v ∉ handleSave s c saveResp) ∧
    (resolveFiles s (FetchResult.ok l)).fileContent = s.fileContent ∧
    (resolveFiles s (FetchResult.ok l)).selectedFile = s.selectedFile ∧
    (resolveFiles s (FetchResult.ok l)).version = s.version ∧
    displayed (resolveFiles s (FetchResult.ok l)) = displayed s ∧
    (∀ bufferValue : String,
      editorValueAfter s.fileContent (resolveFiles s (FetchResult.ok l)).fileContent
          bufferValue = bufferValue) := by
  refine ⟨?_, rfl, rfl, rfl, rfl, ?_⟩
  · intro p v
    rcases hpid : s.projectId with _ | pid
    · simp [handleSave, hpid]
    · rcases hsel : s.selectedFile with _ | f
      · simp [handleSave, hpid, hsel]
      · by_cases hcase : (pid == "" || f == "") = true
        · simp [handleSave, hpid, hsel, hcase]
        · have hc2 : (pid == "" || f == "") = false := by simpa using hcase
          cases saveResp <;> simp [handleSave, hpid, hsel, hc2]
  · intro bufferValue
    simp [editorValueAfter, resolveFiles]

/-- Witness for C8 at concrete inputs. -/
theorem save_preserves_buffer_witness :
    Request.content "x" 1 ∉ handleSave initialState "body" FetchResult.error ∧
    editorValueAfter initialState.fileContent
        (resolveFiles initialState (FetchResult.ok [])).fileContent "buf" = "buf" :=
  ⟨(save_preserves_buffer initialState "body" FetchResult.error []).1 "x" 1,
   (save_preserves_buffer initialState "body" FetchResult.error []).2.2.2.2.2 "buf"⟩

/-- C10: changing the active project id clears nothing - the log sequence,
listing, selection, file content, steps, status and the displayed content
all keep the values accumulated under the previous id; only new fetches
are issued. -/
theorem project_switch_preserves_state (s : PageState) (newId : Option String) :
    (projectChange s newId).1.logs = s.logs ∧
    (projectChange s newId).1.files = s.files ∧
    (projectChange s newId).1.selectedFile = s.selectedFile ∧
    (projectChange s newId).1.fileContent = s.fileContent ∧
    (projectChange s newId).1.steps = s.steps ∧
    (projectChange s newId).1.status = s.status ∧
    displayed (projectChange s newId).1 = displayed s :=
  ⟨rfl, rfl, rfl, rfl, rfl, rfl, rfl⟩

/-- Appending one step to the list extends the first-appearance key list
exactly when its key is new. -/
theorem firstKeys_append (l : List Step) (t : Step) :
    firstKeys (l ++ [t]) =
      if groupKey t ∈ firstKeys l then firstKeys l else firstKeys l ++ [groupKey t] := by
  unfold firstKeys
  rw [List.foldl_append]
  rfl

/-- A key appears in the first-appearance list exactly when some step of
the list carries it. -/
theorem mem_firstKeys (l : List Step) :
    ∀ x : String, x ∈ firstKeys l ↔ x ∈ l.map groupKey := by
  induction l using List.reverseRecOn with
  | nil =>
    intro x
    simp [firstKeys]
  | append_singleton l t ih =>
    intro x
    rw [firstKeys_append, List.map_append]
    by_cases hmem : groupKey t ∈ firstKeys l
    · rw [if_pos hmem]
      have hmem2 : groupKey t ∈ l.map groupKey := (ih _).mp hmem
      rw [ih x]
      simp only [List.mem_append, List.map_cons, List.map_nil, List.mem_singleton]
      constructor
      · exact fun hx => Or.inl hx
      · rintro (hx | hx)
        · exact hx
        · rw [hx]
          exact hmem2
    · rw [if_neg hmem]
      simp [List.mem_append, ih x]

/-- The first-appearance key list has no duplicates. -/
theorem nodup_firstKeys (l : List Step) : (firstKeys l).Nodup := by
  induction l using List.reverseRecOn with
  | nil => simp [firstKeys]
  | append_singleton l t ih =>
    rw [firstKeys_append]
    by_cases hmem : groupKey t ∈ firstKeys l
    · rw [if_pos hmem]
      exact ih
    · rw [if_neg hmem]
      simp [List.nodup_append, ih, hmem]

/-- Inserting a step whose key is already a bucket key appends it to that
(unique) bucket. -/
theorem addToGroups_mem (K : List String) (F : String → List Step) (k : String) (t : Step) :
    K.Nodup → k ∈ K →
    addToGroups (K.map (fun x => (x, F x))) k t =
      K.map (fun x => (x, F x ++ if k = x then [t] else [])) := by
  induction K with
  | nil =>
    intro _ hmem
    cases hmem
  | cons x K ih =>
    intro hnd hmem
    rw [List.map_cons, List.map_cons]
    by_cases hx : x = k
    · subst hx
      have hnotin : x ∉ K := (List.nodup_cons.mp hnd).1
      have htail : K.map (fun y => (y, F y ++ if x = y then [t] else []))
          = K.map (fun y => (y, F y)) := by
        apply List.map_congr_left
        intro y hy
        have hne : ¬x = y := fun hc => hnotin (hc ▸ hy)
        simp [hne]
      simp [addToGroups, htail]
    · have hmem2 : k ∈ K := by
        rcases List.mem_cons.mp hmem with hcase | hcase
        · exact absurd hcase.symm hx
        · exact hcase
      have hnd2 : K.Nodup := (List.nodup_cons.mp hnd).2
      have hk : ¬k = x := fun hc => hx hc.symm
      simp [addToGroups, hx, hk, ih hnd2 hmem2]

/-- Inserting a step whose key has no bucket yet adds a fresh singleton
bucket at the end. -/
theorem addToGroups_notMem (K : List String) (F : String → List Step) (k : String) (t : Step) :
    k ∉ K →
    addToGroups (K.map (fun x => (x, F x))) k t
      = K.map (fun x => (x, F x)) ++ [(k, [t])] := by
  induction K with
  | nil =>
    intro _
    rfl
  | cons x K ih =>
    intro hnotin
    have hx : ¬x = k := fun hc => hnotin (by rw [hc]; exact List.mem_cons_self _ _)
    have hnotin2 : k ∉ K := fun hc => hnotin (List.mem_cons_of_mem _ hc)
    simp [addToGroups, hx, ih hnotin2]

/-- The grouping loop processes an appended step as one map insertion. -/
theorem groupSteps_append (l : List Step) (t : Step) :
    groupSteps (l ++ [t]) = addToGroups (groupSteps l) (groupKey t) t := by
  unfold groupSteps
  rw [List.foldl_append]
  rfl

/-- C9 (amended): the DAGView grouping loop partitions the steps into
cohorts keyed by parallel_group with JavaScript truthiness (a null, absent
or empty-string group falls back to the step id), cohorts ordered by first
appearance of their key and each cohort listing its steps in step-list
order. -/
theorem cohorts_amended (steps : List Step) : groupSteps steps = cohortsSpec steps := by
  induction steps using List.reverseRecOn with
  | nil => rfl
  | append_singleton l t ih =>
    rw [groupSteps_append, ih]
    unfold cohortsSpec
    rw [firstKeys_append]
    by_cases hmem : groupKey t ∈ firstKeys l
    · rw [if_pos hmem]
      rw [addToGroups_mem (firstKeys l)
            (fun k => l.filter (fun s => decide (groupKey s = k)))
            (groupKey t) t (nodup_firstKeys l) hmem]
      apply List.map_congr_left
      intro k hk
      rw [List.filter_append]
      by_cases hkt : groupKey t = k
      · simp [List.filter, hkt]
      · simp [List.filter, hkt]
    · rw [if_neg hmem]
      rw [addToGroups_notMem (firstKeys l)
            (fun k => l.filter (fun s => decide (groupKey s = k)))
            (groupKey t) t hmem]
      rw [List.map_append]
      have hpart1 : (firstKeys l).map
            (fun k => (k, (l ++ [t]).filter (fun s => decide (groupKey s = k))))
          = (firstKeys l).map (fun k => (k, l.filter (fun s => decide (groupKey s = k)))) := by
        apply List.map_congr_left
        intro k hk
        rw [List.filter_append]
        have hne : ¬groupKey t = k := fun hc => hmem (hc ▸ hk)
        simp [List.filter, hne]
      have hpart2 : l.filter (fun s => decide (groupKey s = groupKey t)) = [] := by
        rw [List.filter_eq_nil_iff]
        intro a ha hcontra
        apply hmem
        rw [mem_firstKeys]
        have hkey : groupKey a = groupKey t := of_decide_eq_true hcontra
        exact hkey ▸ List.mem_map_of_mem groupKey ha
      rw [hpart1]
      simp [List.filter_append, List.filter, hpart2]

/-- Counterexample to C9 as stated: two steps both carrying the present
parallel_group "" do not share a cohort in the code - the JavaScript
truthiness fallback keys each by its own id - while the claim wording puts
them into one shared "" cohort. -/
theorem cohort_claim_counterexample :
    groupSteps [stepA, stepB] = [("a", [stepA]), ("b", [stepB])] ∧
    cohortsClaim [stepA, stepB] = [("", [stepA, stepB])] ∧
    groupSteps [stepA, stepB] ≠ cohortsClaim [stepA, stepB] := by
  decide

end AstroMind
